import Mathlib

/-!
Verification of the feed-digest generator in `src/main.rs`.

The development shallowly embeds the program's data model and the four pure
stages of its pipeline:

* `parser_rss` / `parser_atom` — the two format parsers (panics in the Rust
  code, i.e. `expect` / `unwrap` / out-of-bounds indexing, are modelled as
  `Except.error`, which propagates and aborts the whole run exactly as a
  Rust panic would);
* the format-detection fallback of `fetch_feed` (`parseContent`,
  `processFeeds`), with the byte-level outcomes of the external `rss` and
  `atom_syndication` readers modelled as an abstract `Payload`;
* `split_by_group` — the bucket partitioner (the `HashMap` is modelled as a
  function from keys to entry lists, built by the same per-feed loop);
* `generate_md` — the renderer.

Timestamps (`chrono::DateTime<FixedOffset>`) are modelled as a calendar
record plus a proleptic-Gregorian conversion to a global second count
(`DateTime.toSecs`); `chrono`'s `Ord`, `signed_duration_since`,
`with_year`, `year()` and `%Y-%m-%d` formatting are all derived from that
record.  Sub-second precision is not modelled (all claims are at whole
second granularity).  The external lenient date parser
(`diligent_date_parser::parse_date`) is an explicit function parameter.
-/

/-! ## Calendar model (chrono) -/

/-- Proleptic Gregorian leap-year test, as in chrono. -/
def isLeap (y : Int) : Bool :=
  (y % 4 == 0 && y % 100 != 0) || y % 400 == 0

/-- Cumulative days before month `m` in a non-leap year (1-based month). -/
def daysBeforeMonthBase (m : Nat) : Nat :=
  match m with
  | 1 => 0 | 2 => 31 | 3 => 59 | 4 => 90 | 5 => 120 | 6 => 151
  | 7 => 181 | 8 => 212 | 9 => 243 | 10 => 273 | 11 => 304 | 12 => 334
  | _ => 0

/-- Days before month `m` of year `y`. -/
def daysBeforeMonth (y : Int) (m : Nat) : Nat :=
  daysBeforeMonthBase m + (if 2 < m && isLeap y then 1 else 0)

/-- Number of days in month `m` of year `y`. -/
def daysInMonth (y : Int) (m : Nat) : Nat :=
  match m with
  | 1 => 31 | 2 => if isLeap y then 29 else 28 | 3 => 31 | 4 => 30
  | 5 => 31 | 6 => 30 | 7 => 31 | 8 => 31 | 9 => 30 | 10 => 31
  | 11 => 30 | 12 => 31
  | _ => 0

/-- Days from 0001-01-01 to `y`-01-01 in the proleptic Gregorian calendar
(floor division, valid for all integer years). -/
def yearStart (y : Int) : Int :=
  365 * (y - 1) + (y - 1) / 4 - (y - 1) / 100 + (y - 1) / 400

/-- A `chrono::DateTime<FixedOffset>`: local calendar fields plus a fixed
UTC offset in seconds (positive = east). -/
structure DateTime where
  year : Int
  month : Nat
  day : Nat
  hour : Nat
  minute : Nat
  second : Nat
  offset : Int
  deriving DecidableEq, Repr, Inhabited

/-- The date is a real calendar date and the time/offset are in range
(chrono's internal invariant). -/
def DateTime.Valid (d : DateTime) : Prop :=
  1 ≤ d.month ∧ d.month ≤ 12 ∧ 1 ≤ d.day ∧ d.day ≤ daysInMonth d.year d.month ∧
  d.hour ≤ 23 ∧ d.minute ≤ 59 ∧ d.second ≤ 59 ∧
  -86400 < d.offset ∧ d.offset < 86400

instance (d : DateTime) : Decidable d.Valid := by
  unfold DateTime.Valid; infer_instance

/-- Day number of the local calendar date (days since 0001-01-01). -/
def DateTime.toDays (d : DateTime) : Int :=
  yearStart d.year + (daysBeforeMonth d.year d.month : Int) + (d.day : Int) - 1

/-- The instant the record denotes, as a global second count: local clock
reading converted to UTC by subtracting the offset.  This is the order
`chrono`'s `Ord` and `signed_duration_since` use. -/
def DateTime.toSecs (d : DateTime) : Int :=
  86400 * d.toDays + (3600 * (d.hour : Int) + 60 * (d.minute : Int) + (d.second : Int)) - d.offset

/-- `chrono`'s `Datelike::with_year`: replace the year, keeping month/day;
`none` when the resulting date does not exist (Feb 29 of a non-leap year). -/
def DateTime.withYear (d : DateTime) (y : Int) : Option DateTime :=
  if d.day ≤ daysInMonth y d.month then some { d with year := y } else none

/-! ## Data model (`main.rs` lines 10–24) -/

/-- One subscription (`struct Channel`); the feed `url` is irrelevant to the
pure pipeline and omitted from the fields the parsers read. -/
structure Channel where
  url : String
  author : String
  group : String
  deriving DecidableEq, Repr

/-- A normalized feed item (`struct FeedsItem`). -/
structure FeedsItem where
  title : String
  author : String
  date : DateTime
  url : String
  group : String
  deriving DecidableEq, Repr, Inhabited

/-- An `rss::Item` as read by `parser_rss`: the three fields it touches,
each optional exactly as in the `rss` crate. -/
structure RssItem where
  title : Option String
  pub_date : Option String
  link : Option String
  deriving DecidableEq, Repr

/-- An `atom_syndication::Entry` as read by `parser_atom`: `links` is the
list of `href`s. -/
structure AtomEntry where
  title : String
  published : Option DateTime
  updated : DateTime
  links : List String
  deriving DecidableEq, Repr

/-! ## Format parsers (`main.rs` lines 26–67)

Rust panics (`expect`, `unwrap`, `links[0]` on an empty vector) are
modelled as `Except.error`; an error aborts everything downstream, exactly
like the panic unwinding out of `main`. -/

/-- `parser_rss` (lines 26–51).  `parseDate` stands for the external
`diligent_date_parser::parse_date`. -/
def parser_rss (parseDate : String → Option DateTime) (items : List RssItem)
    (channel : Channel) : Except String (List FeedsItem) :=
  match items with
  | [] => Except.ok []
  | item :: rest =>
    match item.pub_date with
    | none => Except.error "error format!"
    | some ds =>
      match parseDate ds with
      | none =>
        -- "error on parsing date ..." is logged and the item is skipped
        parser_rss parseDate rest channel
      | some date =>
        match item.link with
        | none => Except.error "called `Option::unwrap()` on a `None` value"
        | some url =>
          match parser_rss parseDate rest channel with
          | Except.error e => Except.error e
          | Except.ok feeds =>
            Except.ok ({ title := item.title.getD "", author := channel.author,
                         date := date, url := url, group := channel.group } :: feeds)

/-- `parser_atom` (lines 53–67): date is `published` falling back to
`updated`; `links[0]` on an entry with no links is an index panic. -/
def parser_atom (entries : List AtomEntry) (channel : Channel) :
    Except String (List FeedsItem) :=
  match entries with
  | [] => Except.ok []
  | item :: rest =>
    match item.links with
    | [] => Except.error "index out of bounds: the len is 0 but the index is 0"
    | href :: _ =>
      match parser_atom rest channel with
      | Except.error e => Except.error e
      | Except.ok feeds =>
        Except.ok ({ title := item.title, author := channel.author,
                     date := item.published.getD item.updated, url := href,
                     group := channel.group } :: feeds)

/-- Outcome of the two external byte-level readers on one fetched payload:
`asRss` is `rss::Channel::read_from` (its item list), `asAtom` is
`atom_syndication::Feed::read_from` (its entry list); `none` = that reader
fails on the bytes. -/
structure Payload where
  asRss : Option (List RssItem)
  asAtom : Option (List AtomEntry)
  deriving Repr

/-- The per-channel format dispatch of `fetch_feed` (lines 110–122): try
RSS first; only if that reader fails try Atom; if both fail, log a parse
error and contribute zero entries. -/
def parseContent (parseDate : String → Option DateTime) (p : Payload)
    (channel : Channel) : Except String (List FeedsItem) :=
  match p.asRss with
  | some items => parser_rss parseDate items channel
  | none =>
    match p.asAtom with
    | some entries => parser_atom entries channel
    | none => Except.ok []   -- "parse error at {url}" is logged

/-- The parse half of `fetch_feed` (lines 100–124): each channel comes with
`none` (fetch failed after the retry — logged, skipped) or `some` payload;
entries are appended channel by channel.  A parser panic aborts the run. -/
def processFeeds (parseDate : String → Option DateTime)
    (l : List (Channel × Option Payload)) : Except String (List FeedsItem) :=
  match l with
  | [] => Except.ok []
  | (_, none) :: rest => processFeeds parseDate rest
  | (ch, some p) :: rest =>
    match parseContent parseDate p ch with
    | Except.error e => Except.error e
    | Except.ok feeds =>
      match processFeeds parseDate rest with
      | Except.error e => Except.error e
      | Except.ok more => Except.ok (feeds ++ more)

/-! ## Aggregator (`main.rs` lines 235–237)

`feeds.sort_by_key(|f| f.date)` is a stable ascending sort by the instant,
then `feeds.reverse()`. -/

/-- The sort key order on entries: ascending by instant. -/
def feedLE (a b : FeedsItem) : Prop := a.date.toSecs ≤ b.date.toSecs

instance : DecidableRel feedLE := fun a b =>
  inferInstanceAs (Decidable (a.date.toSecs ≤ b.date.toSecs))

instance : IsTotal FeedsItem feedLE :=
  ⟨fun a b => Int.le_total a.date.toSecs b.date.toSecs⟩

instance : IsTrans FeedsItem feedLE := ⟨fun _ _ _ h h' => le_trans h h'⟩

/-- `sort_by_key` followed by `reverse`: descending by `published`. -/
def sortFeeds (feeds : List FeedsItem) : List FeedsItem :=
  (List.insertionSort feedLE feeds).reverse

/-! ## Partitioner (`main.rs` lines 162–183) -/

/-- The keys a single entry is pushed under (lines 169–175): always `""`;
its group when non-empty; `"this-year"` when
`date.signed_duration_since(past_year).num_seconds() >= 0`. -/
def keysOf (pastYear : DateTime) (f : FeedsItem) : List String :=
  [""] ++ (if f.group ≠ "" then [f.group] else []) ++
    (if 0 ≤ f.date.toSecs - pastYear.toSecs then ["this-year"] else [])

/-- One step of the bucket loop: push `f` onto every bucket in `keys`
(the `HashMap` is a total function, absent keys holding `[]`). -/
def pushKeys (m : String → List FeedsItem) (f : FeedsItem) (keys : List String) :
    String → List FeedsItem :=
  fun k => if k ∈ keys then m k ++ [f] else m k

/-- `split_by_group` (lines 162–183).  `now` is the run's start time
(`chrono::Utc::now()`, offset 0); `now.with_year(now.year() - 1).unwrap()`
is a panic — an `Except.error` — when the date is invalid in the previous
year. -/
def split_by_group (now : DateTime) (feeds : List FeedsItem) :
    Except String (String → List FeedsItem) :=
  match now.withYear (now.year - 1) with
  | none => Except.error "called `Option::unwrap()` on a `None` value"
  | some pastYear =>
    Except.ok (feeds.foldl (fun m f => pushKeys m f (keysOf pastYear f)) (fun _ => []))

/-- The member list of bucket `k` in a partitioner result (`[]` when the
partitioner panicked). -/
def bucketsOf (r : Except String (String → List FeedsItem)) (k : String) :
    List FeedsItem :=
  match r with
  | Except.ok b => b k
  | Except.error _ => []

/-! ## Renderer (`main.rs` lines 185–219)

The year-keyed `BTreeMap` built at lines 190–194 is never read afterwards
(dead code) and is not modelled.  The renderer pushes blocks into `buf` and
joins them with a blank line. -/

/-- `format!("# {}", item.date.year())` (line 196). -/
def fmtYear (f : FeedsItem) : String := "# " ++ toString f.date.year

/-- Zero-pad to two digits (`%m`, `%d`). -/
def pad2 (n : Nat) : String := if n < 10 then "0" ++ toString n else toString n

/-- Zero-pad to four digits (`%Y`). -/
def pad4 (n : Nat) : String :=
  if n < 10 then "000" ++ toString n
  else if n < 100 then "00" ++ toString n
  else if n < 1000 then "0" ++ toString n
  else toString n

/-- `item.date.format("%Y-%m-%d")`: the local calendar date. -/
def formatDate (d : DateTime) : String :=
  (if d.year < 0 then "-" ++ pad4 d.year.natAbs else pad4 d.year.natAbs) ++
    "-" ++ pad2 d.month ++ "-" ++ pad2 d.day

/-- `format!("{}, @{}, [{}]({})", date, author, title, url)` (lines 198–206). -/
def fmtItem (f : FeedsItem) : String :=
  formatDate f.date ++ ", @" ++ f.author ++ ", [" ++ f.title ++ "](" ++ f.url ++ ")"

/-- The loop of lines 211–217: walk the tail, comparing each item's year
with its predecessor's; a year heading before the item's line on a change. -/
def mdLoop (prev : FeedsItem) (rest : List FeedsItem) : List String :=
  match rest with
  | [] => []
  | item :: more =>
    (if item.date.year ≠ prev.date.year then [fmtYear item] else []) ++
      (fmtItem item :: mdLoop item more)

/-- The block list `buf` of `generate_md`: `fmt_year(&list[0])` then the
loop over indices `1..len` — note no `fmt_item(&list[0])` is ever pushed. -/
def generateMdBuf (list : List FeedsItem) : List String :=
  match list with
  | [] => []
  | first :: rest => fmtYear first :: mdLoop first rest

/-- `generate_md` (lines 185–219): empty input gives `""`, otherwise the
blocks joined by a blank line (`buf.join("\n\n")`). -/
def generate_md (list : List FeedsItem) : String :=
  match list with
  | [] => ""
  | _ => String.intercalate "\n\n" (generateMdBuf list)

/-- Number of year transitions the renderer loop sees after `prev`. -/
def countYearChanges (prev : FeedsItem) (rest : List FeedsItem) : Nat :=
  match rest with
  | [] => 0
  | item :: more =>
    (if item.date.year ≠ prev.date.year then 1 else 0) + countYearChanges item more

/-! ## Maximal runs of equal year (specification side, for the renderer) -/

/-- Split a list into maximal runs of entries sharing a calendar year. -/
def chunksByYear : List FeedsItem → List (List FeedsItem)
  | [] => []
  | e :: l =>
    match chunksByYear l with
    | [] => [[e]]
    | [] :: rs => [e] :: rs
    | (x :: r) :: rs =>
      if e.date.year = x.date.year then (e :: x :: r) :: rs
      else [e] :: (x :: r) :: rs

/-- The year of a run (of its first entry). -/
def runYear (r : List FeedsItem) : Int :=
  match r with
  | [] => 0
  | x :: _ => x.date.year

/-- How the renderer lays out one non-initial run: the year heading, then
one line per entry of the run. -/
def renderRun (r : List FeedsItem) : List String :=
  match r with
  | [] => []
  | x :: xs => fmtYear x :: (x :: xs).map fmtItem

/-! ## Parser lemmas -/

theorem parser_rss_cons_nodate (parseDate : String → Option DateTime)
    (item : RssItem) (rest : List RssItem) (channel : Channel)
    (hpd : item.pub_date = none) :
    parser_rss parseDate (item :: rest) channel = Except.error "error format!" := by
  simp [parser_rss, hpd]

theorem parser_rss_cons_baddate (parseDate : String → Option DateTime)
    (item : RssItem) (rest : List RssItem) (channel : Channel) (s : String)
    (hpd : item.pub_date = some s) (hbad : parseDate s = none) :
    parser_rss parseDate (item :: rest) channel = parser_rss parseDate rest channel := by
  simp [parser_rss, hpd, hbad]

theorem parser_rss_cons_nolink (parseDate : String → Option DateTime)
    (item : RssItem) (rest : List RssItem) (channel : Channel) (s : String)
    (d : DateTime) (hpd : item.pub_date = some s) (hgood : parseDate s = some d)
    (hl : item.link = none) :
    parser_rss parseDate (item :: rest) channel =
      Except.error "called `Option::unwrap()` on a `None` value" := by
  simp [parser_rss, hpd, hgood, hl]

theorem parser_rss_cons_good (parseDate : String → Option DateTime)
    (item : RssItem) (rest : List RssItem) (channel : Channel) (s : String)
    (d : DateTime) (url : String) (hpd : item.pub_date = some s)
    (hgood : parseDate s = some d) (hl : item.link = some url) :
    parser_rss parseDate (item :: rest) channel =
      match parser_rss parseDate rest channel with
      | Except.error e => Except.error e
      | Except.ok feeds =>
        Except.ok ({ title := item.title.getD "", author := channel.author,
                     date := d, url := url, group := channel.group } :: feeds) := by
  simp [parser_rss, hpd, hgood, hl]

/-- An RSS item with no `pubDate` anywhere in the list makes `parser_rss`
panic (`expect("error format!")`, or an earlier panic): the result is an
error, never a partial list. -/
theorem parser_rss_error_of_no_pubdate (parseDate : String → Option DateTime)
    (items : List RssItem) (channel : Channel)
    (h : ∃ it ∈ items, it.pub_date = none) :
    ∃ msg, parser_rss parseDate items channel = Except.error msg := by
  induction items with
  | nil => rcases h with ⟨it, hmem, _⟩; cases hmem
  | cons item rest ih =>
    rcases h with ⟨it, hmem, hnone⟩
    rcases List.mem_cons.mp hmem with heq | hmem'
    · subst heq
      exact ⟨_, parser_rss_cons_nodate parseDate it rest channel hnone⟩
    · cases hpd : item.pub_date with
      | none => exact ⟨_, parser_rss_cons_nodate parseDate item rest channel hpd⟩
      | some ds =>
        rcases ih ⟨it, hmem', hnone⟩ with ⟨msg, herr⟩
        cases hparse : parseDate ds with
        | none =>
          exact ⟨msg, by
            rw [parser_rss_cons_baddate parseDate item rest channel ds hpd hparse, herr]⟩
        | some date =>
          cases hlink : item.link with
          | none =>
            exact ⟨_, parser_rss_cons_nolink parseDate item rest channel ds date hpd hparse hlink⟩
          | some url =>
            exact ⟨msg, by
              rw [parser_rss_cons_good parseDate item rest channel ds date url hpd hparse hlink,
                herr]⟩

/-- If the whole run succeeds, every fetched channel's parse succeeded: a
parser panic in any channel aborts the run. -/
theorem processFeeds_ok_parse_ok (parseDate : String → Option DateTime)
    (l : List (Channel × Option Payload)) (v : List FeedsItem)
    (h : processFeeds parseDate l = Except.ok v) :
    ∀ ch p, (ch, some p) ∈ l → ∃ w, parseContent parseDate p ch = Except.ok w := by
  induction l generalizing v with
  | nil => intro ch p hmem; cases hmem
  | cons hd tl ih =>
    intro ch p hmem
    rcases hd with ⟨ch', op⟩
    cases op with
    | none =>
      rcases List.mem_cons.mp hmem with heq | hmem'
      · cases heq
      · exact ih v (by simpa [processFeeds] using h) ch p hmem'
    | some p' =>
      unfold processFeeds at h
      cases hpc : parseContent parseDate p' ch' with
      | error e => rw [hpc] at h; cases h
      | ok w =>
        rw [hpc] at h
        cases hrest : processFeeds parseDate tl with
        | error e => rw [hrest] at h; cases h
        | ok more =>
          rcases List.mem_cons.mp hmem with heq | hmem'
          · injection heq with h1 h2
            subst h1
            injection h2 with h2'
            subst h2'
            exact ⟨w, hpc⟩
          · exact ih more hrest ch p hmem'

/-- An RSS item whose `pubDate` is present but unparsable is skipped and the
rest of the channel is parsed as if the item were absent. -/
theorem parser_rss_skips_bad_date (parseDate : String → Option DateTime)
    (channel : Channel) (pre post : List RssItem) (it : RssItem) (s : String)
    (hpd : it.pub_date = some s) (hbad : parseDate s = none) :
    parser_rss parseDate (pre ++ it :: post) channel =
      parser_rss parseDate (pre ++ post) channel := by
  induction pre with
  | nil =>
    simpa using parser_rss_cons_baddate parseDate it post channel s hpd hbad
  | cons q qre ih =>
    simp only [List.cons_append]
    cases hpd' : q.pub_date with
    | none =>
      rw [parser_rss_cons_nodate parseDate q _ channel hpd',
        parser_rss_cons_nodate parseDate q _ channel hpd']
    | some ds =>
      cases hparse : parseDate ds with
      | none =>
        rw [parser_rss_cons_baddate parseDate q _ channel ds hpd' hparse,
          parser_rss_cons_baddate parseDate q _ channel ds hpd' hparse, ih]
      | some date =>
        cases hlink : q.link with
        | none =>
          rw [parser_rss_cons_nolink parseDate q _ channel ds date hpd' hparse hlink,
            parser_rss_cons_nolink parseDate q _ channel ds date hpd' hparse hlink]
        | some url =>
          rw [parser_rss_cons_good parseDate q _ channel ds date url hpd' hparse hlink,
            parser_rss_cons_good parseDate q _ channel ds date url hpd' hparse hlink, ih]

/-- `parser_atom` succeeds when every entry has at least one link, and its
output is one normalized entry per Atom entry, with `published` falling
back to `updated` and the first link as url. -/
theorem parser_atom_ok_of_links (entries : List AtomEntry) (channel : Channel)
    (h : ∀ e ∈ entries, e.links ≠ []) :
    parser_atom entries channel =
      Except.ok (entries.map (fun e =>
        { title := e.title, author := channel.author,
          date := e.published.getD e.updated, url := e.links.headD "",
          group := channel.group })) := by
  induction entries with
  | nil => rfl
  | cons e rest ih =>
    have hrest := ih (fun x hx => h x (List.mem_cons_of_mem e hx))
    cases hl : e.links with
    | nil => exact absurd hl (h e (List.mem_cons_self e rest))
    | cons href t => simp [parser_atom, hl, hrest]

/-- An Atom entry with an empty `links` list makes `parser_atom` panic
(out-of-bounds `links[0]`). -/
theorem parser_atom_error_of_empty_links (entries : List AtomEntry)
    (channel : Channel) (h : ∃ e ∈ entries, e.links = []) :
    ∃ msg, parser_atom entries channel = Except.error msg := by
  induction entries with
  | nil => rcases h with ⟨e, hmem, _⟩; cases hmem
  | cons e rest ih =>
    rcases h with ⟨e', hmem, hnil⟩
    rcases List.mem_cons.mp hmem with heq | hmem'
    · subst heq
      exact ⟨"index out of bounds: the len is 0 but the index is 0",
        by simp [parser_atom, hnil]⟩
    · cases hl : e.links with
      | nil =>
        exact ⟨"index out of bounds: the len is 0 but the index is 0",
          by simp [parser_atom, hl]⟩
      | cons href t =>
        rcases ih ⟨e', hmem', hnil⟩ with ⟨msg, herr⟩
        exact ⟨msg, by simp [parser_atom, hl, herr]⟩

/-! ## Partitioner lemmas -/

/-- The bucket loop, characterized: after folding all feeds, bucket `k`
holds whatever it held initially followed by exactly the feeds whose key
list contains `k`, in input order. -/
theorem splitFold_eq_filter (pastYear : DateTime) (feeds : List FeedsItem)
    (init : String → List FeedsItem) (k : String) :
    (feeds.foldl (fun m f => pushKeys m f (keysOf pastYear f)) init) k =
      init k ++ feeds.filter (fun f => decide (k ∈ keysOf pastYear f)) := by
  induction feeds generalizing init with
  | nil => simp
  | cons f fs ih =>
    rw [List.foldl_cons, ih]
    by_cases hk : k ∈ keysOf pastYear f
    · simp [pushKeys, hk]
    · simp [pushKeys, hk]

/-- Membership in a bucket of a successful `split_by_group` run. -/
theorem split_by_group_bucket (now pastYear : DateTime) (feeds : List FeedsItem)
    (b : String → List FeedsItem)
    (hwy : now.withYear (now.year - 1) = some pastYear)
    (h : split_by_group now feeds = Except.ok b) (k : String) :
    b k = feeds.filter (fun f => decide (k ∈ keysOf pastYear f)) := by
  unfold split_by_group at h
  rw [hwy] at h
  injection h with h'
  subst h'
  simpa using splitFold_eq_filter pastYear feeds (fun _ => []) k

/-- The keys an entry is pushed under, as a predicate. -/
theorem mem_keysOf (pastYear : DateTime) (f : FeedsItem) (k : String) :
    k ∈ keysOf pastYear f ↔
      k = "" ∨ (f.group ≠ "" ∧ k = f.group) ∨
        (0 ≤ f.date.toSecs - pastYear.toSecs ∧ k = "this-year") := by
  unfold keysOf
  by_cases hg : f.group = "" <;> by_cases hr : 0 ≤ f.date.toSecs - pastYear.toSecs <;>
    simp [hg, hr]

/-! ## Renderer lemmas -/

/-- The renderer loop emits one line per visited entry plus one heading per
year transition. -/
theorem mdLoop_length (prev : FeedsItem) (rest : List FeedsItem) :
    (mdLoop prev rest).length = rest.length + countYearChanges prev rest := by
  induction rest generalizing prev with
  | nil => rfl
  | cons item more ih =>
    by_cases hy : item.date.year ≠ prev.date.year
    · simp [mdLoop, countYearChanges, hy, ih item]
      omega
    · simp [mdLoop, countYearChanges, hy, ih item]
      omega

/-- The lines of the visited entries appear in the loop output, in order. -/
theorem mdLoop_sublist (prev : FeedsItem) (rest : List FeedsItem) :
    (rest.map fmtItem).Sublist (mdLoop prev rest) := by
  induction rest generalizing prev with
  | nil => exact List.Sublist.refl _
  | cons item more ih =>
    rw [List.map_cons]
    unfold mdLoop
    exact List.Sublist.trans (List.Sublist.cons₂ _ (ih item))
      (List.sublist_append_right _ _)

/-- Every run produced by `chunksByYear` is non-empty. -/
theorem chunksByYear_ne_nil (l : List FeedsItem) :
    ∀ r ∈ chunksByYear l, r ≠ [] := by
  induction l with
  | nil => intro r hr; cases hr
  | cons e l ih =>
    intro r hr
    unfold chunksByYear at hr
    cases hc : chunksByYear l with
    | nil =>
      rw [hc] at hr
      rcases List.mem_cons.mp hr with heq | h0
      · subst heq; exact List.cons_ne_nil e []
      · cases h0
    | cons r0 rs =>
      rw [hc] at hr
      cases r0 with
      | nil =>
        rcases List.mem_cons.mp hr with heq | h0
        · subst heq; exact List.cons_ne_nil e []
        · exact ih r (hc ▸ List.mem_cons_of_mem [] h0)
      | cons x r0t =>
        by_cases hy : e.date.year = x.date.year
        · simp only [hy, if_pos rfl] at hr
          rcases List.mem_cons.mp hr with heq | h0
          · subst heq; exact List.cons_ne_nil e _
          · exact ih r (hc ▸ List.mem_cons_of_mem _ h0)
        · simp only [if_neg hy] at hr
          rcases List.mem_cons.mp hr with heq | h0
          · subst heq; exact List.cons_ne_nil e []
          · exact ih r (hc ▸ h0)

/-- The runs concatenate back to the original list. -/
theorem chunksByYear_flatten (l : List FeedsItem) :
    (chunksByYear l).flatten = l := by
  induction l with
  | nil => rfl
  | cons e l ih =>
    unfold chunksByYear
    cases hc : chunksByYear l with
    | nil =>
      simp only [List.flatten]
      rw [hc] at ih
      simp at ih
      simp [ih]
    | cons r0 rs =>
      cases r0 with
      | nil =>
        exact absurd rfl (chunksByYear_ne_nil l [] (hc ▸ List.mem_cons_self [] rs))
      | cons x r0t =>
        rw [hc] at ih
        by_cases hy : e.date.year = x.date.year
        · simp only [hy, if_pos rfl, List.flatten_cons]
          simp only [List.flatten_cons] at ih
          simp [ih]
        · simp only [if_neg hy, List.flatten_cons]
          simp only [List.flatten_cons] at ih
          simp [ih]

/-- `chunksByYear` of a non-empty list is a run list headed by a run that
starts with the first entry. -/
theorem chunksByYear_cons (x : FeedsItem) (xs : List FeedsItem) :
    ∃ t rs, chunksByYear (x :: xs) = (x :: t) :: rs := by
  unfold chunksByYear
  cases hc : chunksByYear xs with
  | nil => exact ⟨[], [], rfl⟩
  | cons r0 rs =>
    cases r0 with
    | nil => exact ⟨[], rs, rfl⟩
    | cons y r0t =>
      by_cases hy : x.date.year = y.date.year
      · exact ⟨y :: r0t, rs, by simp [hy]⟩
      · exact ⟨[], (y :: r0t) :: rs, by simp [hy]⟩

/-- The renderer output, run by run: the first run contributes its year
heading and the lines of all its entries EXCEPT the first of the list; every
later run contributes its heading immediately followed by the lines of all
its entries. -/
theorem generateMdBuf_runs (l : List FeedsItem) (e : FeedsItem)
    (t : List FeedsItem) (rs : List (List FeedsItem))
    (hc : chunksByYear (e :: l) = (e :: t) :: rs) :
    generateMdBuf (e :: l) =
      (fmtYear e :: t.map fmtItem) ++ (rs.map renderRun).flatten := by
  induction l generalizing e t rs with
  | nil =>
    have hone : chunksByYear [e] = [[e]] := rfl
    rw [hone] at hc
    injection hc with h1 h2
    injection h1 with he ht
    subst h2
    rw [← ht]
    rfl
  | cons x xs ih =>
    rcases chunksByYear_cons x xs with ⟨t', rs', hc'⟩
    have hloop : mdLoop x xs = t'.map fmtItem ++ (rs'.map renderRun).flatten := by
      have hgb := ih x t' rs' hc'
      simp only [generateMdBuf] at hgb
      injection hgb
    unfold chunksByYear at hc
    rw [hc'] at hc
    by_cases hy : e.date.year = x.date.year
    · simp only [hy, if_pos rfl] at hc
      injection hc with h1 h2
      injection h1 with he ht
      subst h2
      rw [← ht]
      simp only [generateMdBuf, mdLoop, hy]
      simp [hloop]
    · simp only [if_neg hy] at hc
      injection hc with h1 h2
      injection h1 with he ht
      subst h2
      rw [← ht]
      have hxy : x.date.year ≠ e.date.year := fun hcon => hy hcon.symm
      simp only [generateMdBuf, mdLoop, if_pos hxy]
      simp [hloop, renderRun]

/-- Under non-increasing years the run years are strictly decreasing. -/
theorem chunks_runYears_sorted (l : List FeedsItem)
    (h : l.Pairwise (fun a b => b.date.year ≤ a.date.year)) :
    ((chunksByYear l).map runYear).Pairwise (fun a b => b < a) := by
  induction l with
  | nil => exact List.Pairwise.nil
  | cons x xs ih =>
    rcases List.pairwise_cons.mp h with ⟨hx, hxs⟩
    have ihx := ih hxs
    unfold chunksByYear
    cases hc : chunksByYear xs with
    | nil => simp
    | cons r0 rs =>
      cases r0 with
      | nil =>
        exact absurd rfl (chunksByYear_ne_nil xs [] (hc ▸ List.mem_cons_self [] rs))
      | cons y r0t =>
        have hyx : y.date.year ≤ x.date.year := by
          apply hx
          have hfl := chunksByYear_flatten xs
          rw [hc] at hfl
          rw [← hfl]
          simp
        rw [hc] at ihx
        rcases List.pairwise_cons.mp ihx with ⟨hy0, hrs⟩
        by_cases hy : x.date.year = y.date.year
        · simp only [hy, if_pos rfl, List.map_cons]
          refine List.pairwise_cons.mpr ⟨?_, hrs⟩
          intro a ha
          have ha' : a < runYear (y :: r0t) := hy0 a ha
          show a < x.date.year
          rw [hy]
          exact ha'
        · simp only [if_neg hy, List.map_cons]
          refine List.pairwise_cons.mpr ⟨?_, ihx⟩
          intro a ha
          have hlt : y.date.year < x.date.year :=
            lt_of_le_of_ne hyx (fun hcon => hy hcon.symm)
          rcases List.mem_cons.mp ha with heq | hmem
          · subst heq
            exact hlt
          · exact lt_trans (hy0 a hmem) hlt

/-! ## Calendar arithmetic lemmas -/

theorem isLeap_iff (y : Int) :
    isLeap y = true ↔ (y % 4 = 0 ∧ ¬y % 100 = 0) ∨ y % 400 = 0 := by
  simp [isLeap]

/-- One Gregorian year is 365 days, 366 when it is a leap year. -/
theorem yearStart_succ (y : Int) :
    yearStart (y + 1) = yearStart y + (if isLeap y then 366 else 365) := by
  by_cases hl : isLeap y
  · rcases (isLeap_iff y).mp hl with hcase | hcase <;>
      · simp only [yearStart, if_pos hl, add_sub_cancel_right]
        omega
  · have hnl := hl
    rw [isLeap_iff] at hnl
    push_neg at hnl
    simp only [yearStart, if_neg hl, add_sub_cancel_right]
    omega

/-- Year starts are separated by at least the length of the earlier year. -/
theorem yearStart_mono (y z : Int) (h : y < z) :
    yearStart y + (if isLeap y then 366 else 365) ≤ yearStart z := by
  have hz : y + 1 ≤ z := h
  refine Int.le_induction
    (P := fun n => (yearStart y + if isLeap y then 366 else 365) ≤ yearStart n) ?_ ?_ z hz
  · exact le_of_eq (yearStart_succ y).symm
  · intro n _ hn
    have hstep := yearStart_succ n
    have hpos : (365 : Int) ≤ if isLeap n then 366 else 365 := by
      by_cases hl : isLeap n <;> simp [hl]
    omega

/-- The day-of-year index of a valid date is below the year length. -/
theorem doy_lt_year_length (y : Int) (m d : Nat) (h1 : 1 ≤ m) (h2 : m ≤ 12)
    (h3 : 1 ≤ d) (h4 : d ≤ daysInMonth y m) :
    (daysBeforeMonth y m : Int) + (d : Int) - 1 < if isLeap y then 366 else 365 := by
  interval_cases m <;> by_cases hl : isLeap y <;>
    simp [daysBeforeMonth, daysBeforeMonthBase, daysInMonth, hl] at h4 ⊢ <;> omega

/-- Between valid dates, a strictly larger local year means a strictly
larger day number. -/
theorem toDays_lt_of_year_lt (d1 d2 : DateTime) (hv1 : d1.Valid) (hv2 : d2.Valid)
    (hy : d1.year < d2.year) : d1.toDays < d2.toDays := by
  rcases hv1 with ⟨hm1, hm1', hd1, hd1', -, -, -, -, -⟩
  rcases hv2 with ⟨hm2, hm2', hd2, hd2', -, -, -, -, -⟩
  have hb1 := doy_lt_year_length d1.year d1.month d1.day hm1 hm1' hd1 hd1'
  have hmono := yearStart_mono d1.year d2.year hy
  simp only [DateTime.toDays]
  by_cases hl : isLeap d1.year
  · simp only [if_pos hl] at hb1 hmono
    omega
  · simp only [if_neg hl] at hb1 hmono
    omega

/-- For valid dates sharing one UTC offset, the instant order bounds the
local-year order: an earlier-or-equal instant cannot be in a later year. -/
theorem year_le_of_toSecs_le (d1 d2 : DateTime) (hv1 : d1.Valid) (hv2 : d2.Valid)
    (hoff : d1.offset = d2.offset) (h : d1.toSecs ≤ d2.toSecs) :
    d1.year ≤ d2.year := by
  by_contra hcon
  push_neg at hcon
  have hdays := toDays_lt_of_year_lt d2 d1 hv2 hv1 hcon
  rcases hv1 with ⟨-, -, -, -, hh1, hmin1, hs1, -, -⟩
  rcases hv2 with ⟨-, -, -, -, hh2, hmin2, hs2, -, -⟩
  simp only [DateTime.toSecs] at h
  have hh1' : (d1.hour : Int) ≤ 23 := by exact_mod_cast hh1
  have hmin1' : (d1.minute : Int) ≤ 59 := by exact_mod_cast hmin1
  have hs1' : (d1.second : Int) ≤ 59 := by exact_mod_cast hs1
  have hh2' : (d2.hour : Int) ≤ 23 := by exact_mod_cast hh2
  have hmin2' : (d2.minute : Int) ≤ 59 := by exact_mod_cast hmin2
  have hs2' : (d2.second : Int) ≤ 59 := by exact_mod_cast hs2
  have hnn1 : (0 : Int) ≤ (d1.hour : Int) := Int.natCast_nonneg _
  have hnn2 : (0 : Int) ≤ (d1.minute : Int) := Int.natCast_nonneg _
  have hnn3 : (0 : Int) ≤ (d1.second : Int) := Int.natCast_nonneg _
  have hnn4 : (0 : Int) ≤ (d2.hour : Int) := Int.natCast_nonneg _
  have hnn5 : (0 : Int) ≤ (d2.minute : Int) := Int.natCast_nonneg _
  have hnn6 : (0 : Int) ≤ (d2.second : Int) := Int.natCast_nonneg _
  omega

/-- A list descending by instant whose dates are valid and share one UTC
offset has non-increasing local years. -/
theorem years_nonincr_of_desc (l : List FeedsItem) (off : Int)
    (hval : ∀ f ∈ l, f.date.Valid) (hoff : ∀ f ∈ l, f.date.offset = off)
    (hdesc : l.Pairwise (fun a b => b.date.toSecs ≤ a.date.toSecs)) :
    l.Pairwise (fun a b => b.date.year ≤ a.date.year) := by
  refine hdesc.imp_of_mem ?_
  intro a b ha hb h
  exact year_le_of_toSecs_le b.date a.date (hval b hb) (hval a ha)
    (by rw [hoff b hb, hoff a ha]) h

/-! ## Concrete sample data for witnesses and counterexamples -/

/-- 2024-03-02T10:00:00Z. -/
def dA : DateTime := ⟨2024, 3, 2, 10, 0, 0, 0⟩

/-- 2024-03-01T09:30:00Z. -/
def dB : DateTime := ⟨2024, 3, 1, 9, 30, 0, 0⟩

def eA : FeedsItem := ⟨"t0", "alice", dA, "u0", "g"⟩

def eB : FeedsItem := ⟨"t1", "bob", dB, "u1", ""⟩

def w0 : FeedsItem := ⟨"a", "alice", ⟨2024, 1, 2, 0, 0, 0, 0⟩, "u0", ""⟩

def w1 : FeedsItem := ⟨"b", "bob", ⟨2023, 5, 1, 0, 0, 0, 0⟩, "u1", ""⟩

def chBad : Channel := ⟨"http://one.example/feed", "alice", ""⟩

def chOk : Channel := ⟨"http://two.example/feed", "bob", "g"⟩

/-- An RSS item with no `pubDate`. -/
def itemNoDate : RssItem := ⟨some "t", none, some "u"⟩

/-- A well-formed RSS item; `"D"` is the one date string `pdTest` accepts. -/
def itemGood : RssItem := ⟨some "t2", some "D", some "u2"⟩

/-- An RSS item whose `pubDate` string is present but unparsable. -/
def itemBadDate : RssItem := ⟨some "t3", some "X", some "u3"⟩

/-- A stand-in for the lenient external date parser: accepts exactly `"D"`. -/
def pdTest : String → Option DateTime := fun s => if s = "D" then some dB else none

def pBad : Payload := ⟨some [itemNoDate], none⟩

def pGood : Payload := ⟨some [itemGood], none⟩

/-- An Atom entry with one link and no `published` (so `updated` is used). -/
def aEntry : AtomEntry := ⟨"at", none, dA, ["http://x.example/post"]⟩

/-- An Atom entry with an empty link list. -/
def aEmpty : AtomEntry := ⟨"ae", none, dA, []⟩

/-- 2024-06-01T00:00:00Z, a run start away from any leap day. -/
def now0 : DateTime := ⟨2024, 6, 1, 0, 0, 0, 0⟩

/-- `now0` with its year decremented. -/
def py0 : DateTime := ⟨2023, 6, 1, 0, 0, 0, 0⟩

/-- 2024-03-01T00:00:00Z: a run start one (leap) calendar year after
2023-03-01, i.e. 366 days. -/
def nowMar : DateTime := ⟨2024, 3, 1, 0, 0, 0, 0⟩

/-- 2023-03-01T00:00:00Z. -/
def pyMar : DateTime := ⟨2023, 3, 1, 0, 0, 0, 0⟩

/-- An entry published exactly 366 days before `nowMar`. -/
def eOld : FeedsItem := ⟨"old", "carol", pyMar, "u4", ""⟩

/-! ## Claims -/

/-- C2, counterexample.  The claim says a missing `pubDate` is fatal at most
to that channel's parse and the run continues.  In fact `parser_rss` panics
(`expect("error format!")`): with a bad first channel the whole run aborts
and even the healthy second channel contributes nothing, although that
second channel alone would parse fine. -/
theorem claim_c2_counterexample :
    processFeeds pdTest [(chBad, some pBad), (chOk, some pGood)] =
      Except.error "error format!" ∧
    processFeeds pdTest [(chOk, some pGood)] =
      Except.ok [{ title := "t2", author := "bob", date := dB, url := "u2",
                   group := "g" }] := by
  constructor <;> rfl

/-- C2, amended: a fetched channel whose RSS payload contains an item with
no `pubDate` makes the whole run abort with a panic — no channel contributes
anything; the failure is NOT contained to that channel. -/
theorem claim_c2_amended (parseDate : String → Option DateTime)
    (l : List (Channel × Option Payload)) (ch : Channel) (p : Payload)
    (items : List RssItem) (it : RssItem) (hmem : (ch, some p) ∈ l)
    (hrss : p.asRss = some items) (hit : it ∈ items)
    (hpd : it.pub_date = none) :
    ∃ msg, processFeeds parseDate l = Except.error msg := by
  cases hres : processFeeds parseDate l with
  | error e => exact ⟨e, rfl⟩
  | ok v =>
    obtain ⟨w, hw⟩ := processFeeds_ok_parse_ok parseDate l v hres ch p hmem
    have hpc : parseContent parseDate p ch = parser_rss parseDate items ch := by
      simp [parseContent, hrss]
    obtain ⟨msg, herr⟩ :=
      parser_rss_error_of_no_pubdate parseDate items ch ⟨it, hit, hpd⟩
    rw [hpc, herr] at hw
    cases hw

/-- C2, witness for the amended claim at a concrete input. -/
theorem claim_c2_witness :
    ∃ msg, processFeeds pdTest [(chBad, some pBad)] = Except.error msg :=
  claim_c2_amended pdTest [(chBad, some pBad)] chBad pBad [itemNoDate] itemNoDate
    (List.mem_cons_self _ _) rfl (List.mem_cons_self _ _) rfl

/-- C6: format detection is an ordered fallback.  If the RSS reader accepts
the bytes its items are used (Atom is never tried); only when it fails is
the Atom reader consulted; when both fail the channel contributes zero
entries; and an Atom entry's timestamp is `published` with fallback to
`updated` (shown by the explicit output of a links-complete Atom parse). -/
theorem claim_c6_fallback :
    (∀ pd p ch items, p.asRss = some items →
        parseContent pd p ch = parser_rss pd items ch) ∧
    (∀ pd p ch entries, p.asRss = none → p.asAtom = some entries →
        parseContent pd p ch = parser_atom entries ch) ∧
    (∀ pd p ch, p.asRss = none → p.asAtom = none →
        parseContent pd p ch = Except.ok []) ∧
    (∀ ch entries, (∀ e ∈ entries, e.links ≠ []) →
        parser_atom entries ch = Except.ok (entries.map (fun e =>
          { title := e.title, author := ch.author,
            date := e.published.getD e.updated, url := e.links.headD "",
            group := ch.group }))) := by
  refine ⟨?_, ?_, ?_, ?_⟩
  · intro pd p ch items h
    simp [parseContent, h]
  · intro pd p ch entries h1 h2
    simp [parseContent, h1, h2]
  · intro pd p ch h1 h2
    simp [parseContent, h1, h2]
  · intro ch entries h
    exact parser_atom_ok_of_links entries ch h

/-- C6, witness: a concrete Atom-only payload is parsed by the Atom parser,
with `updated` standing in for the absent `published`. -/
theorem claim_c6_witness :
    parseContent pdTest ⟨none, some [aEntry]⟩ chOk = parser_atom [aEntry] chOk ∧
    parser_atom [aEntry] chOk =
      Except.ok [{ title := "at", author := "bob", date := dA,
                   url := "http://x.example/post", group := "g" }] := by
  constructor
  · exact claim_c6_fallback.2.1 pdTest ⟨none, some [aEntry]⟩ chOk [aEntry] rfl rfl
  · have h := claim_c6_fallback.2.2.2 chOk [aEntry]
      (by intro e he; simp at he; subst he; decide)
    simpa [aEntry, chOk] using h

/-- C7: an RSS item whose `pubDate` is present but unparsable is skipped
(logged) and the channel's remaining items are parsed exactly as if that
item were absent — the channel is not aborted. -/
theorem claim_c7_bad_date_skip (parseDate : String → Option DateTime)
    (channel : Channel) (pre post : List RssItem) (it : RssItem) (s : String)
    (hpd : it.pub_date = some s) (hbad : parseDate s = none) :
    parser_rss parseDate (pre ++ it :: post) channel =
      parser_rss parseDate (pre ++ post) channel :=
  parser_rss_skips_bad_date parseDate channel pre post it s hpd hbad

/-- C7, witness: with the unparsable-dated item in front, the channel still
yields the good item. -/
theorem claim_c7_witness :
    parser_rss pdTest [itemBadDate, itemGood] chOk =
      parser_rss pdTest [itemGood] chOk ∧
    parser_rss pdTest [itemGood] chOk =
      Except.ok [{ title := "t2", author := "bob", date := dB, url := "u2",
                   group := "g" }] := by
  constructor
  · exact claim_c7_bad_date_skip pdTest chOk [] [itemGood] itemBadDate "X"
      rfl (by decide)
  · rfl

/-- C9: `parser_atom` panics (unguarded `links[0]`) as soon as any entry
has an empty link list, and succeeds when every entry has at least one
link — totality holds only under that precondition. -/
theorem claim_c9_atom_links (entries : List AtomEntry) (ch : Channel) :
    ((∃ e ∈ entries, e.links = []) →
        ∃ msg, parser_atom entries ch = Except.error msg) ∧
    ((∀ e ∈ entries, e.links ≠ []) →
        ∃ v, parser_atom entries ch = Except.ok v) :=
  ⟨parser_atom_error_of_empty_links entries ch,
   fun h => ⟨_, parser_atom_ok_of_links entries ch h⟩⟩

/-- C9, witness: one linkless entry panics the parse. -/
theorem claim_c9_witness :
    ∃ msg, parser_atom [aEmpty] chOk = Except.error msg :=
  (claim_c9_atom_links [aEmpty] chOk).1 ⟨aEmpty, List.mem_cons_self _ _, rfl⟩

/-- C4: every entry lands in the `""` bucket; in the bucket of its group
exactly when the group is non-empty; in `"this-year"` exactly when the
recency test passes; and the `""` bucket is exactly the input entry list.
(The group/recency clauses are stated for keys other than the two reserved
names `""` and `"this-year"`, which the bucket key space sets apart.) -/
theorem claim_c4_buckets (now pastYear : DateTime) (feeds : List FeedsItem)
    (b : String → List FeedsItem)
    (hwy : now.withYear (now.year - 1) = some pastYear)
    (hs : split_by_group now feeds = Except.ok b) :
    b "" = feeds ∧
    (∀ k, k ≠ "" → k ≠ "this-year" →
        b k = feeds.filter (fun f => decide (f.group = k))) ∧
    (∀ f ∈ feeds, f.group ≠ "this-year" →
        (f ∈ b "this-year" ↔ 0 ≤ f.date.toSecs - pastYear.toSecs)) ∧
    (∀ f ∈ feeds, f.group ≠ "" → f ∈ b f.group) := by
  have hb := split_by_group_bucket now pastYear feeds b hwy hs
  refine ⟨?_, ?_, ?_, ?_⟩
  · rw [hb ""]
    apply List.filter_eq_self.mpr
    intro f hf
    simp [mem_keysOf]
  · intro k hk1 hk2
    rw [hb k]
    apply List.filter_congr
    intro f hf
    simp only [decide_eq_decide]
    rw [mem_keysOf]
    constructor
    · rintro (h | ⟨hg, hkg⟩ | ⟨hr, hky⟩)
      · exact absurd h hk1
      · exact hkg.symm
      · exact absurd hky hk2
    · intro h
      exact Or.inr (Or.inl ⟨fun hg => hk1 (h.symm.trans hg), h.symm⟩)
  · intro f hf hg
    rw [hb "this-year", List.mem_filter]
    simp only [decide_eq_true_eq]
    rw [mem_keysOf]
    constructor
    · rintro ⟨-, h | ⟨hg', hky⟩ | ⟨hr, -⟩⟩
      · exact absurd h (by decide)
      · exact absurd hky.symm hg
      · exact hr
    · intro hr
      exact ⟨hf, Or.inr (Or.inr ⟨hr, rfl⟩)⟩
  · intro f hf hg
    rw [hb f.group, List.mem_filter]
    refine ⟨hf, ?_⟩
    simp only [decide_eq_true_eq]
    rw [mem_keysOf]
    exact Or.inr (Or.inl ⟨hg, rfl⟩)

/-- C4, witness at a concrete run. -/
theorem claim_c4_witness :
    bucketsOf (split_by_group now0 [eA, eB]) "" = [eA, eB] ∧
    eA ∈ bucketsOf (split_by_group now0 [eA, eB]) "g" := by
  have h := claim_c4_buckets now0 py0 [eA, eB]
    ([eA, eB].foldl (fun m f => pushKeys m f (keysOf py0 f)) (fun _ => []))
    (by decide) rfl
  exact ⟨h.1, h.2.2.2 eA (List.mem_cons_self _ _) (by decide)⟩

/-- C5, counterexample.  The claim promises a fixed 365-day window.  With
run start 2024-03-01T00:00Z the code's cutoff is 2023-03-01T00:00Z — 366
days earlier, because the spanned February has 29 days — so an entry
published exactly 366 days before the run start (strictly older than 365
days) still lands in the `"this-year"` bucket. -/
theorem claim_c5_counterexample :
    bucketsOf (split_by_group nowMar [eOld]) "this-year" = [eOld] ∧
    nowMar.toSecs - eOld.date.toSecs = 366 * 86400 := by
  constructor <;> decide

/-- C5, amended: the recency cutoff is not "365 days before the run start"
but the run start with its year decremented (same month/day — 365 or 366
days back depending on leap years); an entry is in `"this-year"` exactly
when its instant is at or after that cutoff.  (Stated for entries whose
group is not literally `"this-year"`.) -/
theorem claim_c5_amended (now pastYear : DateTime) (feeds : List FeedsItem)
    (b : String → List FeedsItem)
    (hwy : now.withYear (now.year - 1) = some pastYear)
    (hs : split_by_group now feeds = Except.ok b)
    (f : FeedsItem) (hf : f ∈ feeds) (hg : f.group ≠ "this-year") :
    f ∈ b "this-year" ↔ pastYear.toSecs ≤ f.date.toSecs := by
  have hb := split_by_group_bucket now pastYear feeds b hwy hs
  rw [hb "this-year", List.mem_filter]
  simp only [decide_eq_true_eq]
  rw [mem_keysOf]
  constructor
  · rintro ⟨-, h | ⟨hg', hky⟩ | ⟨hr, -⟩⟩
    · exact absurd h (by decide)
    · exact absurd hky.symm hg
    · omega
  · intro hr
    exact ⟨hf, Or.inr (Or.inr ⟨by omega, rfl⟩)⟩

/-- C5, witness for the amended claim: the 366-day-old entry is in the
bucket because its instant equals the cutoff. -/
theorem claim_c5_witness :
    eOld ∈ bucketsOf (split_by_group nowMar [eOld]) "this-year" := by
  have h := claim_c5_amended nowMar pyMar [eOld]
    ([eOld].foldl (fun m f => pushKeys m f (keysOf pyMar f)) (fun _ => []))
    (by decide) rfl eOld (List.mem_cons_self _ _) (by decide)
  exact h.mpr (by decide)

/-- C10: when the run starts on February 29 (necessarily of a leap year),
`now.with_year(now.year() - 1)` is `None` — the previous year has no
February 29 — and the `unwrap` panics, aborting the whole run whatever the
entry set. -/
theorem claim_c10_leap_day (now : DateTime) (feeds : List FeedsItem)
    (hm : now.month = 2) (hd : now.day = 29) (hleap : isLeap now.year = true) :
    split_by_group now feeds =
      Except.error "called `Option::unwrap()` on a `None` value" := by
  have h4 : now.year % 4 = 0 := by
    rcases (isLeap_iff now.year).mp hleap with ⟨h, -⟩ | h
    · exact h
    · omega
  have hnl : isLeap (now.year - 1) = false := by
    cases hc : isLeap (now.year - 1)
    · rfl
    · exfalso
      rcases (isLeap_iff _).mp hc with ⟨h, -⟩ | h <;> omega
  have hwy : now.withYear (now.year - 1) = none := by
    unfold DateTime.withYear
    rw [hm, hd]
    simp [daysInMonth, hnl]
  unfold split_by_group
  rw [hwy]

/-- C10, witness: 2024-02-29 aborts the partitioner. -/
theorem claim_c10_witness :
    split_by_group ⟨2024, 2, 29, 12, 0, 0, 0⟩ [eA] =
      Except.error "called `Option::unwrap()` on a `None` value" :=
  claim_c10_leap_day ⟨2024, 2, 29, 12, 0, 0, 0⟩ [eA] rfl rfl (by decide)

/-- C8: the aggregated list handed to the partitioner (stable sort by
`published`, then reverse) is descending by instant, every bucket is a
sublist of it (same relative order), and hence every bucket is itself
descending by instant. -/
theorem claim_c8_sorted_buckets (now : DateTime) (feeds : List FeedsItem)
    (b : String → List FeedsItem)
    (hs : split_by_group now (sortFeeds feeds) = Except.ok b) :
    (sortFeeds feeds).Pairwise (fun a c => c.date.toSecs ≤ a.date.toSecs) ∧
    (∀ k, (b k).Sublist (sortFeeds feeds)) ∧
    (∀ k, (b k).Pairwise (fun a c => c.date.toSecs ≤ a.date.toSecs)) := by
  have hsorted : (sortFeeds feeds).Pairwise
      (fun a c => c.date.toSecs ≤ a.date.toSecs) := by
    unfold sortFeeds
    rw [List.pairwise_reverse]
    exact List.sorted_insertionSort feedLE feeds
  obtain ⟨py, hwy⟩ : ∃ py, now.withYear (now.year - 1) = some py := by
    cases hwy : now.withYear (now.year - 1) with
    | none =>
      unfold split_by_group at hs
      rw [hwy] at hs
      cases hs
    | some py => exact ⟨py, rfl⟩
  have hb := split_by_group_bucket now py (sortFeeds feeds) b hwy hs
  have hsub : ∀ k, (b k).Sublist (sortFeeds feeds) := by
    intro k
    rw [hb k]
    exact List.filter_sublist _
  exact ⟨hsorted, hsub, fun k => List.Pairwise.sublist (hsub k) hsorted⟩

/-- C8, witness at a concrete two-entry aggregation. -/
theorem claim_c8_witness :
    (sortFeeds [eB, eA]).Pairwise (fun a c => c.date.toSecs ≤ a.date.toSecs) :=
  (claim_c8_sorted_buckets now0 [eB, eA]
    ((sortFeeds [eB, eA]).foldl (fun m f => pushKeys m f (keysOf py0 f)) (fun _ => []))
    rfl).1

/-- C1, counterexample.  Two same-year entries in descending order: the
rendered block list has only ONE entry line (the first entry of the list
gets no line, only its year heading), and the line that is emitted has the
form `<date>, @<author>, [<title>](<url>)` with comma separators — the
claimed line `2024-03-02 @alice [t0](u0)` appears nowhere. -/
theorem claim_c1_counterexample :
    generateMdBuf [eA, eB] = ["# 2024", "2024-03-01, @bob, [t1](u1)"] ∧
    "2024-03-02 @alice [t0](u0)" ∉ generateMdBuf [eA, eB] ∧
    (generateMdBuf [eA, eB]).length = 2 := by
  refine ⟨by decide, by decide, by decide⟩

/-- C1, amended: for a non-empty list the renderer emits exactly one line
per entry EXCEPT the first (whose line is omitted), in order; together with
one heading per year transition these are all the blocks; and each entry
line is `<ISO date>, @<author>, [<title>](<url>)` — comma-separated, not
the space-separated form of the claim. -/
theorem claim_c1_amended (e : FeedsItem) (l : List FeedsItem) :
    (l.map fmtItem).Sublist (generateMdBuf (e :: l)) ∧
    (generateMdBuf (e :: l)).length = 1 + l.length + countYearChanges e l ∧
    ∀ f : FeedsItem, fmtItem f =
      formatDate f.date ++ ", @" ++ f.author ++ ", [" ++ f.title ++ "](" ++
        f.url ++ ")" := by
  refine ⟨List.Sublist.cons _ (mdLoop_sublist e l), ?_, fun f => rfl⟩
  simp [generateMdBuf, mdLoop_length]
  omega

/-- C3, counterexample.  Two entries of the same year, descending: the
single year heading is immediately followed by the SECOND entry's line —
the line of that year's first entry does not exist in the output. -/
theorem claim_c3_counterexample :
    generateMdBuf [eA, eB] = [fmtYear eA, fmtItem eB] ∧
    fmtItem eB ≠ fmtItem eA := by
  refine ⟨by decide, by decide⟩

/-- C3, amended: for a non-empty list descending by instant whose dates are
valid and share one UTC offset, the output is one block group per maximal
year run — exactly one heading per distinct year (run years are pairwise
distinct) — where each heading is immediately followed by the lines of that
year's entries in order, EXCEPT that the very first entry of the list
contributes no line (only its heading). -/
theorem claim_c3_amended (e : FeedsItem) (l : List FeedsItem) (off : Int)
    (hval : ∀ f ∈ e :: l, f.date.Valid)
    (hoff : ∀ f ∈ e :: l, f.date.offset = off)
    (hdesc : (e :: l).Pairwise (fun a c => c.date.toSecs ≤ a.date.toSecs)) :
    ∃ t rs, chunksByYear (e :: l) = (e :: t) :: rs ∧
      ((e :: t) :: rs).flatten = e :: l ∧
      generateMdBuf (e :: l) =
        (fmtYear e :: t.map fmtItem) ++ (rs.map renderRun).flatten ∧
      (((e :: t) :: rs).map runYear).Nodup := by
  obtain ⟨t, rs, hc⟩ := chunksByYear_cons e l
  have hyears := years_nonincr_of_desc (e :: l) off hval hoff hdesc
  have hstrict := chunks_runYears_sorted (e :: l) hyears
  rw [hc] at hstrict
  refine ⟨t, rs, hc, ?_, generateMdBuf_runs l e t rs hc, ?_⟩
  · rw [← hc]
    exact chunksByYear_flatten (e :: l)
  · exact hstrict.imp (fun h => (ne_of_lt h).symm)

/-- C3, witness for the amended claim: a two-year concrete list gives two
runs with distinct years, a heading each, and no line for the first entry. -/
theorem claim_c3_witness :
    ((chunksByYear [w0, w1]).map runYear).Nodup ∧
    generateMdBuf [w0, w1] = [fmtYear w0, fmtYear w1, fmtItem w1] := by
  obtain ⟨t, rs, hc, hfl, hbuf, hnd⟩ :=
    claim_c3_amended w0 [w1] 0 (by decide) (by decide) (by decide)
  constructor
  · rw [hc]
    exact hnd
  · decide
